import Mathlib

/-!
Shallow embedding of the azure-doc-intelligence-engine core:
the TOC pipeline (`src/server/extract_toc.py`), the page-range parsers
(`extract_toc.py` and `src/rasa_backend/actions/actions.py`), the topic
resolver (`actions.py`) and the layout reconstructor
(`src/server/spreadsheet_analysis.py`).  Python strings are modelled over
ASCII text; Python `int` overflow does not arise (arbitrary precision),
so integers are `Int`/`Nat`.  Fallible Python code (uncaught exceptions)
is modelled with `Option`/`Except`.
-/

namespace DocEngine

/-! ### Python string primitives -/

/-- Python whitespace characters (the ASCII ones): the set matched by
`str.strip()` and by the regex class backslash-s. -/
def pySpace (c : Char) : Bool :=
  c = ' ' || c = '\t' || c = '\n' || c = '\x0d' || c = Char.ofNat 11 || c = Char.ofNat 12

/-- Drop trailing characters satisfying `p`. -/
def dropTrail (p : Char → Bool) (l : List Char) : List Char :=
  ((l.reverse).dropWhile p).reverse

/-- If `l` starts with the pattern, return the remainder after it. -/
def stripPre : List Char → List Char → Option (List Char)
  | [], l => some l
  | _ :: _, [] => none
  | p :: ps, c :: cs => if c = p then stripPre ps cs else none

/-- Split a character list at every occurrence of the separator
(Python `str.split(sep)` for a one-character separator, keeping empty
segments). -/
def splitOnChar (ch : Char) : List Char → List (List Char)
  | [] => [[]]
  | c :: cs =>
    let r := splitOnChar ch cs
    if c = ch then [] :: r
    else
      match r with
      | [] => [[c]]
      | seg :: rest => (c :: seg) :: rest

/-- Split a string on a one-character separator. -/
def pySplit (s : String) (ch : Char) : List String :=
  (splitOnChar ch s.toList).map String.mk

/-- Replace every non-overlapping occurrence of `pat` (non-empty) by
`rep`, scanning left to right; the fuel equals the input length, which
bounds the number of steps. -/
def replaceGo (pat rep : List Char) : Nat → List Char → List Char
  | 0, l => l
  | _ + 1, [] => []
  | fuel + 1, c :: cs =>
    match stripPre pat (c :: cs) with
    | some rest => rep ++ replaceGo pat rep fuel rest
    | none => c :: replaceGo pat rep fuel cs

/-- Python `str.replace(pat, rep)`. -/
def pyReplace (s pat rep : String) : String :=
  String.mk (replaceGo pat.toList rep.toList s.toList.length s.toList)

/-- Python `str.strip()` on a character list. -/
def pyStripChars (l : List Char) : List Char :=
  dropTrail pySpace (l.dropWhile pySpace)

/-- Python `str.strip()`. -/
def pyStrip (s : String) : String := String.mk (pyStripChars s.toList)

/-- Python `str.lower()` (ASCII model). -/
def pyLower (s : String) : String := String.mk (s.toList.map Char.toLower)

/-- Python `str.splitlines()` restricted to newline-separated text;
trailing-empty-segment differences are erased by the non-empty-line
filters applied at every use site. -/
def pySplitLines (s : String) : List String := pySplit s '\n'

/-! ### Python `int(...)` conversion (`int` of a string) -/

/-- Tail of a Python integer literal after its first digit: digits with
single underscores allowed between digit groups. -/
def pyDigitsTail : List Char → Bool
  | [] => true
  | c :: rest =>
    if c.isDigit then pyDigitsTail rest
    else if c = '_' then
      match rest with
      | c2 :: rest2 => c2.isDigit && pyDigitsTail rest2
      | [] => false
    else false

/-- A valid unsigned Python decimal literal body. -/
def pyDigitsOk : List Char → Bool
  | [] => false
  | c :: rest => c.isDigit && pyDigitsTail rest

/-- Numeric value of a digit list (underscores removed by the caller). -/
def digitsVal (l : List Char) : Nat :=
  l.foldl (fun a c => a * 10 + (c.toNat - 48)) 0

/-- Python `int(s)`: strips whitespace, optional sign, decimal digits with
optional underscore separators; `none` models the `ValueError`. -/
def pyInt (s : String) : Option Int :=
  let t := pyStripChars s.toList
  match t with
  | '+' :: rest =>
    if pyDigitsOk rest then some (digitsVal (rest.filter (fun c => c ≠ '_')) : Int) else none
  | '-' :: rest =>
    if pyDigitsOk rest then some (-(digitsVal (rest.filter (fun c => c ≠ '_')) : Int)) else none
  | rest =>
    if pyDigitsOk rest then some (digitsVal (rest.filter (fun c => c ≠ '_')) : Int) else none

/-! ### Page-range parsers

`parse_page_query` (rasa_backend/actions/actions.py, lines 25-40) and
`parse_page_input` (server/extract_toc.py, lines 98-114). -/

/-- One comma token of `parse_page_query`: `part = part.strip()`; if it
contains a hyphen, split at the first hyphen and convert both sides with
`int`, else convert the whole token; `none` models the `ValueError`. -/
def parseQueryToken (part : String) : Option (Int × Int) :=
  let p := (pyStrip part).toList
  if p.contains '-' then
    let l := p.takeWhile (fun c => c ≠ '-')
    let r := (p.dropWhile (fun c => c ≠ '-')).drop 1
    match pyInt (String.mk l), pyInt (String.mk r) with
    | some a, some b => some (a, b)
    | _, _ => none
  else
    (pyInt (String.mk p)).map (fun v => (v, v))

/-- `parse_page_query` from actions.py: split the query on commas and map
`parseQueryToken` over the tokens; the first failing token aborts the
whole call (uncaught `ValueError`), so the caller sees no partial result. -/
def parse_page_query (s : String) : Option (List (Int × Int)) :=
  (pySplit s ',').mapM parseQueryToken

/-- Python `str.isdigit()` (ASCII model): non-empty and all digits. -/
def pyIsDigitStr (s : String) : Bool :=
  decide (s.toList ≠ []) && s.toList.all Char.isDigit

/-- Loop body of `parse_page_input`: each stripped token either appends a
range, is silently skipped, or raises (hyphenated token with a part `int`
rejects, or a hyphenated token with more than two parts). -/
def parseInputTokens : List String → Option (List (Int × Int))
  | [] => some []
  | p :: rest =>
    if p.toList.contains '-' then
      match (p.toList.splitOn '-').map String.mk with
      | [a, b] =>
        match pyInt a, pyInt b, parseInputTokens rest with
        | some x, some y, some acc => some ((x, y) :: acc)
        | _, _, _ => none
      | _ => none
    else if pyIsDigitStr p then
      (parseInputTokens rest).map (fun acc => (digitsVal p.toList, digitsVal p.toList) :: acc)
    else
      parseInputTokens rest

/-- `parse_page_input` from extract_toc.py: lower-case the input, delete
every occurrence of "pages" then "page", strip, split on commas, strip
each token, then run the token loop. -/
def parse_page_input (s : String) : Option (List (Int × Int)) :=
  let t := pyStrip (pyReplace (pyReplace (pyLower s) "pages" "") "page" "")
  parseInputTokens ((pySplit t ',').map pyStrip)

/-! ### Insertion-ordered dictionaries

Python `dict` semantics: updating an existing key keeps its position and
replaces the value; a new key is appended. -/

/-- Insert into an insertion-ordered dictionary (Python `d[k] = v`). -/
def dinsert {α : Type} (k : String) (v : α) : List (String × α) → List (String × α)
  | [] => [(k, v)]
  | (k1, v1) :: t => if k1 = k then (k1, v) :: t else (k1, v1) :: dinsert k v t

/-- Dictionary lookup (Python `d[k]` / `k in d`). -/
def dlookup {α : Type} (k : String) : List (String × α) → Option α
  | [] => none
  | (k1, v1) :: t => if k1 = k then some v1 else dlookup k t

/-! ### Topic index builder (`build_topic_map`, extract_toc.py lines 70-76) -/

/-- `end = (nxt) if (nxt and nxt >= start) else None`: the next entry's
start page, unless there is none, it is falsy (0), or it is below the
current start. -/
def tocPairEnd (start : Int) (nxt : Option Int) : Option Int :=
  match nxt with
  | some n => if n ≠ 0 ∧ start ≤ n then some n else none
  | none => none

/-- Loop of `build_topic_map`, threading the dictionary. -/
def btmGo : List (String × Int) → List (String × (Int × Option Int)) → List (String × (Int × Option Int))
  | [], m => m
  | (t, s) :: rest, m => btmGo rest (dinsert t (s, tocPairEnd s (rest.head?.map Prod.snd)) m)

/-- `build_topic_map(entries)`: ordered (title, page) pairs to the
title-keyed dictionary of `[start, end]` values. -/
def build_topic_map (es : List (String × Int)) : List (String × (Int × Option Int)) :=
  btmGo es []

/-! ### TOC locator (`find_toc_page_range`, extract_toc.py lines 23-43) -/

/-- The non-empty stripped lines of a page's text
(`[ln.strip() for ln in txt.splitlines() if ln.strip()]`). -/
def cleanLines (txt : String) : List String :=
  ((pySplitLines txt).map pyStrip).filter (fun l => l ≠ "")

/-- Whether a stripped, lower-cased line matches the anchored regex
for a contents heading: exactly "contents" or "table of contents". -/
def isContentsLine (l : String) : Bool :=
  l = "contents" || l = "table of contents"

/-- Whether some line of the page announces a table of contents
(`any(re.match(r"^(table of )?contents$", ln) for ln in low)`). -/
def isContentsPage (txt : String) : Bool :=
  ((cleanLines txt).map pyLower).any isContentsLine

/-- Whether a line matches the TOC-entry pattern: it ends in digits
preceded either by two-or-more whitespace characters, or by a dot leader
of two-or-more dots followed by optional whitespace. -/
def tocLineMatch (s : String) : Bool :=
  let r := s.toList.reverse
  let d := r.takeWhile Char.isDigit
  let r1 := r.dropWhile Char.isDigit
  let w := r1.takeWhile pySpace
  let r2 := r1.dropWhile pySpace
  decide (d ≠ []) && (w.length ≥ 2 || (r2.takeWhile (fun c => c = '.')).length ≥ 2)

/-- `is_toc_like_page`: at least `min_total_lines` non-empty lines of
which at least `min_entry_lines` match the TOC-entry pattern. -/
def is_toc_like_page (txt : String) (min_entry_lines min_total_lines : Nat) : Bool :=
  let lines := cleanLines txt
  decide (lines.length ≥ min_total_lines) && decide (lines.countP tocLineMatch ≥ min_entry_lines)

/-- Scan loop of `find_toc_page_range`: `i` is the 1-based number of the
next page; the state is the detected `(toc_start, toc_end)` if any; once
a start is set, a non-TOC-like page breaks the loop. -/
def tocLoop : List String → Nat → Option (Nat × Nat) → Option (Nat × Nat)
  | [], _, st => st
  | txt :: rest, i, none =>
    if isContentsPage txt || is_toc_like_page txt 3 5 then tocLoop rest (i + 1) (some (i, i))
    else tocLoop rest (i + 1) none
  | txt :: rest, i, some (s, e) =>
    if is_toc_like_page txt 3 5 then tocLoop rest (i + 1) (some (s, i))
    else some (s, e)

/-- `find_toc_page_range(pages)`: scan the first `max_scan_pages` pages,
then accept the span only when both endpoints are truthy and the span
length reaches `min_toc_len`; `none` models the `(None, None)` result. -/
def find_toc_page_range (pages : List String) (max_scan_pages min_toc_len : Nat) : Option (Nat × Nat) :=
  match tocLoop (pages.take max_scan_pages) 1 none with
  | some (s, e) =>
    if s ≠ 0 ∧ e ≠ 0 ∧ (e : Int) - (s : Int) + 1 ≥ (min_toc_len : Int) then some (s, e) else none
  | none => none

/-! ### Exact rational arithmetic and stable sorting

Coordinates and similarity ratios are Python floats in the source; the
embedding idealizes them as exact rationals.  `Q` is an unnormalized
fraction with positive denominator (maintained by every constructor
below); value comparisons cross-multiply, so all operations are
structurally recursive and kernel-reducible. -/

structure Q where
  num : Int
  den : Int
deriving DecidableEq, Repr

/-- Embed an integer. -/
def qInt (n : Int) : Q := ⟨n, 1⟩

instance (n : Nat) : OfNat Q n := ⟨⟨(n : Int), 1⟩⟩

/-- Addition of fractions. -/
def qAdd (a b : Q) : Q := ⟨a.num * b.den + b.num * a.den, a.den * b.den⟩

/-- Subtraction of fractions. -/
def qSub (a b : Q) : Q := ⟨a.num * b.den - b.num * a.den, a.den * b.den⟩

/-- Multiplication of fractions. -/
def qMul (a b : Q) : Q := ⟨a.num * b.num, a.den * b.den⟩

/-- Division of fractions, normalizing the denominator sign; the zero
denominator case only arises where the modelled Python code would not
evaluate the quotient. -/
def qDiv (a b : Q) : Q :=
  let n := a.num * b.den
  let d := a.den * b.num
  if d < 0 then ⟨-n, -d⟩ else ⟨n, d⟩

/-- Value comparison: less-or-equal. -/
def qLe (a b : Q) : Bool := decide (a.num * b.den ≤ b.num * a.den)

/-- Value comparison: strictly less. -/
def qLt (a b : Q) : Bool := decide (a.num * b.den < b.num * a.den)

/-- Value equality. -/
def qEqv (a b : Q) : Bool := decide (a.num * b.den = b.num * a.den)

/-- Python `min(a, b)`: the first argument on ties. -/
def qMin (a b : Q) : Q := if qLe a b then a else b

/-- Python `max(a, b)`: the first argument on ties. -/
def qMax (a b : Q) : Q := if qLe b a then a else b

/-- Python `sum(...)` over rationals: left fold from 0. -/
def qSum (l : List Q) : Q := l.foldl qAdd (qInt 0)

/-- Insertion step of a stable ascending sort: `x`, which precedes the
already-sorted `ys` in the input, goes before the first element it
compares `≤` to — in particular before every element equal to it. -/
def insLe {α : Type} (le : α → α → Bool) (x : α) : List α → List α
  | [] => [x]
  | y :: ys => if le x y then x :: y :: ys else y :: insLe le x ys

/-- Stable ascending insertion sort.  A stable sort by a total preorder
is unique, so this agrees with Python's `list.sort`/`sorted`. -/
def stableSort {α : Type} (le : α → α → Bool) (l : List α) : List α :=
  l.foldr (insLe le) []

/-! ### Topic resolver (`actions.py` lines 54-55 and 80-96)

The fuzzy step embeds `difflib.get_close_matches(word, keys, n=1,
cutoff=0.6)`: Ratcliff-Obershelp matching as implemented by
`difflib.SequenceMatcher` with no junk (the autojunk heuristic only
fires on sequences of 200+ elements, out of range here). -/

/-- Consume the regex tail `(\.\d+)*`: repeatedly drop a dot followed by
one-or-more digits; each step consumes at least two characters, so fuel
equal to the input length suffices. -/
def dropDotGroupsF : Nat → List Char → List Char
  | 0, l => l
  | _ + 1, [] => []
  | fuel + 1, c :: rest =>
    if c = '.' ∧ rest.takeWhile Char.isDigit ≠ [] then
      dropDotGroupsF fuel (rest.dropWhile Char.isDigit)
    else c :: rest

/-- Entry point of `dropDotGroupsF` with adequate fuel. -/
def dropDotGroups (l : List Char) : List Char := dropDotGroupsF l.length l

/-- Strip a leading heading number: the Python regex sub of
`^\d+(\.\d+)*\s*` with the empty string. -/
def cleanKeyChars (l : List Char) : List Char :=
  match l.takeWhile Char.isDigit with
  | [] => l
  | _ :: _ => (dropDotGroups (l.dropWhile Char.isDigit)).dropWhile pySpace

/-- `clean_topic_key`: strip the heading-number regex, then `.strip().lower()`. -/
def clean_topic_key (s : String) : String :=
  pyLower (pyStrip (String.mk (cleanKeyChars s.toList)))

/-- The normalization `by_topic` applies to the query:
`tl = topic.lower().strip()` — note: no heading-number stripping. -/
def normQuery (s : String) : String := pyStrip (pyLower s)

/-- Length of the common run of equal characters of `a` from `i` and `b`
from `j`, with fuel; a run from `i` has length at most `a.length - i`,
so the fuel used by `commonRun` never runs out. -/
def commonRunF (a b : List Char) : Nat → Nat → Nat → Nat
  | 0, _, _ => 0
  | fuel + 1, i, j =>
    match a[i]?, b[j]? with
    | some x, some y => if x = y then commonRunF a b fuel (i + 1) (j + 1) + 1 else 0
    | _, _ => 0

/-- Length of the common run of equal characters of `a` from `i` and `b`
from `j`. -/
def commonRun (a b : List Char) (i j : Nat) : Nat :=
  commonRunF a b (a.length - i) i j

/-- The common run at `(i, j)` clipped to the window `[·, ahi) × [·, bhi)`. -/
def boundedRun (a b : List Char) (i j ahi bhi : Nat) : Nat :=
  min (commonRun a b i j) (min (ahi - i) (bhi - j))

/-- `SequenceMatcher.find_longest_match` over the window: the longest
common block, ties resolved toward the lexicographically least start
position, exactly the block Python's scan keeps. -/
def bestBlock (a b : List Char) (alo ahi blo bhi : Nat) : Nat × Nat × Nat :=
  (List.range' alo (ahi - alo)).foldl (fun best i =>
    (List.range' blo (bhi - blo)).foldl (fun best j =>
      let k := boundedRun a b i j ahi bhi
      if k > best.2.2 then (i, j, k) else best) best) (alo, blo, 0)

/-- Total size of the recursive matching blocks
(`SequenceMatcher.get_matching_blocks`), with fuel bounding the recursion
depth; the initial fuel in `matchedTotal` strictly exceeds every reachable
window size, so the fuel never runs out. -/
def matchedTotalF (a b : List Char) : Nat → Nat → Nat → Nat → Nat → Nat
  | 0, _, _, _, _ => 0
  | fuel + 1, alo, ahi, blo, bhi =>
    let t := bestBlock a b alo ahi blo bhi
    if t.2.2 = 0 then 0
    else
      matchedTotalF a b fuel alo t.1 blo t.2.1 + t.2.2 +
        matchedTotalF a b fuel (t.1 + t.2.2) ahi (t.2.1 + t.2.2) bhi

/-- Total matched characters between `a` and `b`. -/
def matchedTotal (a b : List Char) : Nat :=
  matchedTotalF a b (a.length + b.length + 1) 0 a.length 0 b.length

/-- `SequenceMatcher.ratio()` as an exact rational: `2*M/T`, and 1.0 when
both sequences are empty. -/
def ratioQ (a b : List Char) : Q :=
  if a.length + b.length = 0 then qInt 1
  else ⟨2 * (matchedTotal a b : Int), ((a.length : Int) + (b.length : Int))⟩

/-- Python string `<` (code-point lexicographic). -/
def strLtChars : List Char → List Char → Bool
  | [], [] => false
  | [], _ :: _ => true
  | _ :: _, [] => false
  | a :: as1, b :: bs1 =>
    if a.toNat < b.toNat then true
    else if b.toNat < a.toNat then false
    else strLtChars as1 bs1

/-- One step of the maximum selection inside
`difflib.get_close_matches(word, poss, n=1, cutoff=0.6)`: replace the
current best `(ratio, candidate)` pair when the new pair is larger in the
value-then-string lexicographic order. -/
def pickBest (best : Option (Q × String)) (p : Q × String) : Option (Q × String) :=
  match best with
  | none => some p
  | some q =>
    if qLt q.1 p.1 || (qEqv q.1 p.1 && strLtChars q.2.toList p.2.toList) then some p else some q

/-- The selection of `heapq.nlargest(1, result)`: keep the filtered
candidates' largest `(ratio, candidate)` pair, ratio ties broken toward
the lexicographically larger string. -/
def getCloseMatches1 (word : String) (poss : List String) : Option String :=
  let scored := poss.filterMap (fun x =>
    let r := ratioQ x.toList word.toList
    if qLe ⟨3, 5⟩ r then some (r, x) else none)
  (scored.foldl pickBest none).map Prod.snd

/-- The normalized-to-raw key dictionary built by `by_topic`:
`{self.clean_topic_key(k): k for k in topic_map}`. -/
def buildCleaned (tm : List (String × (Int × Option Int))) : List (String × String) :=
  tm.foldl (fun d kv => dinsert (clean_topic_key kv.1) kv.1 d) []

/-- `ActionSearchByTopicOrPage.by_topic`, reduced to its resolution
result: the raw title resolved for the query (`none` models the
"Topic not found" reply) together with that title's page range. -/
def by_topic (topic : String) (tm : List (String × (Int × Option Int))) :
    Option (String × (Int × Option Int)) :=
  let cleaned := buildCleaned tm
  let tl := normQuery topic
  let real? :=
    match dlookup tl cleaned with
    | some real => some real
    | none =>
      match getCloseMatches1 tl (cleaned.map Prod.fst) with
      | some m => dlookup m cleaned
      | none => none
  match real? with
  | some real => (dlookup real tm).map (fun v => (real, v))
  | none => none

/-! ### Layout reconstructor (`analyze_spreadsheet_auto_merge`,
spreadsheet_analysis.py lines 27-137)

The Azure call and the MongoDB insert are the external collaborators; the
embedding starts from their already-materialized result (pages with
lines, tables with cells and bounding regions) and produces the emitted
row list.  Uncaught Python exceptions (empty `min()`/`max()`, the shapely
`Polygon` constructor on degenerate rings, division by zero on an empty
line polygon) are modelled as `Except.error`. -/

structure PointQ where
  x : Q
  y : Q
deriving DecidableEq, Repr

structure DCell where
  row_index : Nat
  column_index : Nat
  column_span : Option Nat
  content : String
deriving DecidableEq, Repr

structure BRegion where
  page_number : Nat
  polygon : List PointQ
deriving DecidableEq, Repr

structure RTable where
  bounding_regions : List BRegion
  cells : List DCell
deriving DecidableEq, Repr

structure PLine where
  polygon : List PointQ
  content : String
deriving DecidableEq, Repr

structure RPage where
  page_number : Nat
  lines : List PLine
deriving DecidableEq, Repr

structure AnalyzeResult where
  pages : List RPage
  tables : List RTable
deriving DecidableEq, Repr

structure TEntry where
  table : RTable
  poly : List PointQ
  ymin : Q
  ymax : Q
  xmin : Q
deriving DecidableEq, Repr

structure Band where
  tables : List TEntry
  ymin : Q
  ymax : Q
deriving DecidableEq, Repr

structure CellTxt where
  col : Nat
  text : String
deriving DecidableEq, Repr

inductive Element where
  | band (y : Q) (rows : List (Nat × List CellTxt))
  | line (y : Q) (text : String)
deriving DecidableEq, Repr

structure SCell where
  value : String
  enable : Bool
  index : Nat
deriving DecidableEq, Repr

structure SheetRow where
  cells : List SCell
  index : Nat
deriving DecidableEq, Repr

/-- Minimum of a rational list (only applied to non-empty lists; Python
`min([])` raises and is modelled as an error at the call sites). -/
def qListMin : List Q → Q
  | [] => 0
  | c :: t => t.foldl qMin c

/-- Maximum of a rational list. -/
def qListMax : List Q → Q
  | [] => 0
  | c :: t => t.foldl qMax c

/-- Geometry record for one table on the current page, from lines 51-61
of the source: coordinates of the first bounding region, its min/max y
and min x.  Errors: the shapely `Polygon` constructor rejects 1- or
2-point rings, and `min()`/`max()` reject the empty coordinate list. -/
def mkTEntry (tbl : RTable) (region : BRegion) : Except String TEntry :=
  let coords := region.polygon
  if coords.length = 0 then .error "ValueError: min() arg is an empty sequence"
  else if coords.length < 3 then
    .error "ValueError: A LinearRing must have at least 3 coordinate tuples"
  else
    .ok { table := tbl, poly := coords,
          ymin := qListMin (coords.map PointQ.y), ymax := qListMax (coords.map PointQ.y),
          xmin := qListMin (coords.map PointQ.x) }

/-- The loop over `result.tables` for one page: subscript the first
bounding region (an `IndexError` if there is none — this happens before
the page check), keep tables of this page. -/
def collectTables : List RTable → Nat → Except String (List TEntry)
  | [], _ => .ok []
  | tbl :: rest, pageNo =>
    match tbl.bounding_regions.head? with
    | none => .error "IndexError: list index out of range"
    | some region =>
      if region.page_number ≠ pageNo then collectTables rest pageNo
      else
        match mkTEntry tbl region with
        | .error e => .error e
        | .ok t =>
          match collectTables rest pageNo with
          | .error e => .error e
          | .ok ts => .ok (t :: ts)

/-- Non-strict vertical overlap between a band and a table:
`not (tbl["ymax"] < band["ymin"] or tbl["ymin"] > band["ymax"])`. -/
def overlapsBand (band : Band) (t : TEntry) : Bool :=
  !(qLt t.ymax band.ymin || qLt band.ymax t.ymin)

/-- Join a table into a band: append it to the member list and expand the
interval to the union (lines 68-70 of the source). -/
def mergeBand (b : Band) (t : TEntry) : Band :=
  { tables := b.tables ++ [t], ymin := qMin b.ymin t.ymin, ymax := qMax b.ymax t.ymax }

/-- A fresh band holding a single table (line 74 of the source). -/
def newBand (t : TEntry) : Band :=
  { tables := [t], ymin := t.ymin, ymax := t.ymax }

/-- Place one table: join the first overlapping band, expanding its
interval to the union, else append a fresh band. -/
def addToBands : List Band → TEntry → List Band
  | [], t => [newBand t]
  | b :: bs, t =>
    if overlapsBand b t then mergeBand b t :: bs
    else b :: addToBands bs t

/-- Single-pass band clustering over the page's tables in input order. -/
def clusterBands (ts : List TEntry) : List Band := ts.foldl addToBands []

/-- `max(c.column_index for c in t["table"].cells) + 1`; `max()` on an
empty cell list raises. -/
def ncolsOf (t : TEntry) : Except String Nat :=
  match t.table.cells.map DCell.column_index with
  | [] => .error "ValueError: max() arg is an empty sequence"
  | c :: cs => .ok (cs.foldl max c + 1)

/-- Append a cell text to a row's list in the insertion-ordered row map
(`band_rows.setdefault(r, []).append(...)`). -/
def rinsert (r : Nat) (c : CellTxt) : List (Nat × List CellTxt) → List (Nat × List CellTxt)
  | [] => [(r, [c])]
  | (r1, cs) :: t => if r1 = r then (r1, cs ++ [c]) :: t else (r1, cs) :: rinsert r c t

/-- Insert one cell, replicated over its column span
(`getattr(cell, 'column_span', 1)`, then one entry per `span_idx`). -/
def addCellSpans (off : Nat) (cell : DCell) (m : List (Nat × List CellTxt)) :
    List (Nat × List CellTxt) :=
  (List.range (cell.column_span.getD 1)).foldl
    (fun m si =>
      rinsert cell.row_index { col := off + cell.column_index + si, text := pyStrip cell.content } m)
    m

/-- Build a band's layout element: sort member tables by `xmin` (Python's
stable sort), compute cumulative column offsets, fill the row map, and
position the element at the band's (final) `ymin`. -/
def bandElement (band : Band) : Except String Element :=
  let sorted := stableSort (fun a b => qLe a.xmin b.xmin) band.tables
  match sorted.mapM ncolsOf with
  | .error e => .error e
  | .ok ncols =>
    let offsets := (List.scanl (· + ·) 0 ncols).dropLast
    let rows := (sorted.zip offsets).foldl
      (fun m toff => toff.1.table.cells.foldl (fun m cell => addCellSpans toff.2 cell m) m) []
    .ok (Element.band band.ymin rows)

/-- Whether `p` lies on the closed segment from `a` to `b`. -/
def onSegment (p a b : PointQ) : Bool :=
  qEqv (qMul (qSub b.x a.x) (qSub p.y a.y)) (qMul (qSub b.y a.y) (qSub p.x a.x)) &&
    qLe (qMin a.x b.x) p.x && qLe p.x (qMax a.x b.x) &&
    qLe (qMin a.y b.y) p.y && qLe p.y (qMax a.y b.y)

/-- Ray-casting crossing test for one directed edge. -/
def edgeCrosses (p a b : PointQ) : Bool :=
  (qLt p.y a.y != qLt p.y b.y) &&
    qLt p.x (qAdd a.x (qDiv (qMul (qSub p.y a.y) (qSub b.x a.x)) (qSub b.y a.y)))

/-- The edge list of a polygon, including the closing edge. -/
def polyEdges (poly : List PointQ) : List (PointQ × PointQ) :=
  match poly with
  | [] => []
  | p0 :: _ => poly.zip (poly.tail ++ [p0])

/-- Shapely `Polygon(coords).contains(Point pt)` on a simple polygon:
strict interior membership — boundary points are not contained — decided
by even-odd ray casting. -/
def polyContains (poly : List PointQ) (p : PointQ) : Bool :=
  let es := polyEdges poly
  (!es.any (fun e => onSegment p e.1 e.2)) &&
    decide ((es.countP (fun e => edgeCrosses p e.1 e.2)) % 2 = 1)

/-- The representative point of a line: mean x and mean y of its polygon
vertices (`Point(sum(x)/len(coords), cy)`). -/
def repPoint (l : PLine) : PointQ :=
  { x := qDiv (qSum (l.polygon.map PointQ.x)) (qInt l.polygon.length),
    y := qDiv (qSum (l.polygon.map PointQ.y)) (qInt l.polygon.length) }

/-- Centroid y of a line (`cy = sum(ys) / len(ys)`). -/
def centroidY (l : PLine) : Q := qDiv (qSum (l.polygon.map PointQ.y)) (qInt l.polygon.length)

/-- Handle one free-text line: an empty polygon raises
(`ZeroDivisionError`); a line whose representative point lies inside some
table polygon is dropped; otherwise a standalone element at the centroid
y carrying the stripped content. -/
def lineElement (polys : List (List PointQ)) (l : PLine) : Except String (Option Element) :=
  if l.polygon.length = 0 then .error "ZeroDivisionError: division by zero"
  else if polys.any (fun poly => polyContains poly (repPoint l)) then .ok none
  else .ok (some (Element.line (centroidY l) (pyStrip l.content)))

/-- The loop over `page.lines` building the standalone text elements. -/
def buildLineElems (polys : List (List PointQ)) : List PLine → Except String (List Element)
  | [] => .ok []
  | l :: rest =>
    match lineElement polys l with
    | .error e => .error e
    | .ok none => buildLineElems polys rest
    | .ok (some e) =>
      match buildLineElems polys rest with
      | .error err => .error err
      | .ok es => .ok (e :: es)

/-- Sort key of a layout element. -/
def elemY : Element → Q
  | .band y _ => y
  | .line y _ => y

/-- Emit one merged row: sort its cells by global column (stably) and
re-index them to sequential 1-based positions. -/
def rowCellsOut (cs : List CellTxt) : List SCell :=
  ((stableSort (fun a b => decide (a.col ≤ b.col)) cs).enum).map
    (fun ic => { value := ic.2.text, enable := true, index := ic.1 + 1 })

/-- A band's row lists in ascending `row_index` order
(`for r in sorted(el["rows"])`). -/
def bandRowLists (rows : List (Nat × List CellTxt)) : List (List CellTxt) :=
  (stableSort (fun a b => decide (a.1 ≤ b.1)) rows).map Prod.snd

/-- Emit a band's rows, incrementing the global counter per row. -/
def emitBand : List (List CellTxt) → Nat → List SheetRow × Nat
  | [], cur => ([], cur)
  | r :: rest, cur =>
    let out := emitBand rest (cur + 1)
    ({ cells := rowCellsOut r, index := cur } :: out.1, out.2)

/-- Emit all layout elements (lines 115-130 of the source).  After a
band's rows the counter is incremented once more — `current_row += 1`
with no accompanying append — and a standalone text element yields one
single-cell row. -/
def emitRows : List Element → Nat → List SheetRow × Nat
  | [], cur => ([], cur)
  | .band _ rows :: rest, cur =>
    let o1 := emitBand (bandRowLists rows) cur
    let o2 := emitRows rest (o1.2 + 1)
    (o1.1 ++ o2.1, o2.2)
  | .line _ t :: rest, cur =>
    let o2 := emitRows rest (cur + 1)
    ({ cells := [{ value := t, enable := true, index := 1 }], index := cur } :: o2.1, o2.2)

/-- Process one page: collect this page's tables, cluster them into
bands, build band and line elements, sort them by y (stably: bands first
on ties, as in the source's construction order), and emit. -/
def processPage (allTables : List RTable) (pg : RPage) (cur : Nat) :
    Except String (List SheetRow × Nat) :=
  match collectTables allTables pg.page_number with
  | .error e => .error e
  | .ok tabs =>
    match (clusterBands tabs).mapM bandElement with
    | .error e => .error e
    | .ok belems =>
      match buildLineElems (tabs.map TEntry.poly) pg.lines with
      | .error e => .error e
      | .ok lelems =>
        .ok (emitRows (stableSort (fun a b => qLe (elemY a) (elemY b)) (belems ++ lelems)) cur)

/-- The document loop: pages in order, threading the global row counter. -/
def analyzePages (tbls : List RTable) : List RPage → Nat → Except String (List SheetRow × Nat)
  | [], cur => .ok ([], cur)
  | pg :: rest, cur =>
    match processPage tbls pg cur with
    | .error e => .error e
    | .ok o1 =>
      match analyzePages tbls rest o1.2 with
      | .error e => .error e
      | .ok o2 => .ok (o1.1 ++ o2.1, o2.2)

/-- `analyze_spreadsheet_auto_merge`, reduced to the emitted row list of
the single produced sheet (the surrounding `SheetModel` wrapper and the
MongoDB insert add no further computation).  The counter starts at 1. -/
def analyze_spreadsheet_auto_merge (res : AnalyzeResult) : Except String (List SheetRow) :=
  (analyzePages res.tables res.pages 1).map Prod.fst

/-! ### Reference definitions and concrete example inputs

`lastClean` is a specification-side description (the raw title of the
*last* index entry with a given normalized key) used to compare against
the dictionary the resolver actually builds.  The `ex…` values are
concrete documents used by witnesses and counterexamples. -/

/-- The raw title of the last entry of `tm` whose normalized key is `κ`. -/
def lastClean (κ : String) (tm : List (String × (Int × Option Int))) : Option String :=
  tm.foldl (fun acc kv => if clean_topic_key kv.1 = κ then some kv.1 else acc) none

/-- A unit square table polygon on page 1. -/
def exSquare : List PointQ := [⟨0, 0⟩, ⟨10, 0⟩, ⟨10, 10⟩, ⟨0, 10⟩]

/-- A one-cell table occupying `exSquare` on page 1. -/
def exTable : RTable :=
  { bounding_regions := [{ page_number := 1, polygon := exSquare }],
    cells := [{ row_index := 0, column_index := 0, column_span := none, content := " A " }] }

/-- A free-text line below the table, outside its polygon. -/
def exLineBelow : PLine :=
  { polygon := [⟨0, 20⟩, ⟨10, 20⟩, ⟨10, 22⟩, ⟨0, 22⟩], content := "below" }

/-- A free-text line whose representative point lies inside `exSquare`. -/
def exLineInside : PLine :=
  { polygon := [⟨2, 2⟩, ⟨4, 2⟩, ⟨4, 4⟩, ⟨2, 4⟩], content := "dup" }

/-- One-page document with one table and one retained line: the band's
row is followed directly by the line's row. -/
def exDocC4 : AnalyzeResult :=
  { pages := [{ page_number := 1, lines := [exLineBelow, exLineInside] }], tables := [exTable] }

/-- Two-page document for the row-numbering witness: the same table and
line on page 1, then a page with a single line. -/
def exDocC3 : AnalyzeResult :=
  { pages := [{ page_number := 1, lines := [exLineBelow, exLineInside] },
              { page_number := 2, lines := [{ polygon := [⟨0, 1⟩, ⟨4, 1⟩, ⟨4, 2⟩, ⟨0, 2⟩], content := "p2" }] }],
    tables := [exTable] }

/-- Document whose only line has an empty bounding polygon. -/
def exDocBadLine : AnalyzeResult :=
  { pages := [{ page_number := 1, lines := [{ polygon := [], content := "x" }] }], tables := [] }

/-- Document whose only table has a two-vertex bounding polygon. -/
def exDocBadTable : AnalyzeResult :=
  { pages := [{ page_number := 1, lines := [] }],
    tables := [{ bounding_regions := [{ page_number := 1, polygon := [⟨0, 0⟩, ⟨1, 1⟩] }], cells := [] }] }

/-- A table-geometry entry with the given vertical interval (the other
fields do not influence clustering). -/
def exTE (y1 y2 : Q) : TEntry :=
  { table := { bounding_regions := [], cells := [] }, poly := [], ymin := y1, ymax := y2, xmin := 0 }

/-- Clustering example: a helper table far down the page. -/
def exTA : TEntry := exTE 20 22

/-- Clustering example: first of three mutually overlapping tables. -/
def exT1 : TEntry := exTE 0 2

/-- Clustering example: second of three mutually overlapping tables, tall
enough to also touch `exTA`. -/
def exT2 : TEntry := exTE 1 21

/-- Clustering example: third of three mutually overlapping tables. -/
def exT3 : TEntry := exTE 0 1

/-! ## Shared lemmas -/

/-- A successful `mapM parseQueryToken` yields one range per token. -/
theorem mapM_parseQueryToken_length (ts : List String) (l : List (Int × Int))
    (h : ts.mapM parseQueryToken = some l) : l.length = ts.length := by
  induction ts generalizing l with
  | nil =>
    have h0 : List.mapM parseQueryToken ([] : List String) = some ([] : List (Int × Int)) := rfl
    rw [h0] at h
    cases h
    rfl
  | cons t rest ih =>
    rw [List.mapM_cons] at h
    cases hp : parseQueryToken t with
    | none =>
      rw [hp] at h
      simp at h
    | some v =>
      cases hr : List.mapM parseQueryToken rest with
      | none =>
        rw [hp, hr] at h
        simp at h
      | some acc =>
        rw [hp, hr] at h
        simp only [Option.bind_eq_bind, Option.some_bind, pure] at h
        cases h
        simp [ih acc hr]

/-! ## C1: topic index from the example entry list -/

/-- C1, counterexample: `build_topic_map` does not produce the map the
claim states — the paired end is not one less than the next start. -/
theorem C1_counterexample :
    build_topic_map [("Intro", 1), ("Methods", 5), ("Results", 9)] ≠
      [("Intro", (1, some 4)), ("Methods", (5, some 8)), ("Results", (9, none))] := by
  decide

/-- C1, amended: building the topic index from the ordered entry list
yields Intro ↦ [1, 5], Methods ↦ [5, 9], Results ↦ [9, null] — each
entry's end equals the NEXT ENTRY'S START (not one less), and the last
entry's end is null. -/
theorem C1_amended_topic_map :
    build_topic_map [("Intro", 1), ("Methods", 5), ("Results", 9)] =
      [("Intro", (1, some 5)), ("Methods", (5, some 9)), ("Results", (9, none))] := by
  decide

/-! ## C2: page-range parsers -/

/-- C2, counterexample: `parse_page_input "5,x"` contains the
non-numeric token `x`, yet no error is raised and the caller receives
the partial result `[(5, 5)]`; moreover `parse_page_query` accepts the
non-purely-numeric token `5 - 7` (inner whitespace) via Python `int`. -/
theorem C2_counterexample :
    parse_page_input "5,x" = some [(5, 5)] ∧ parse_page_query "5 - 7" = some [(5, 7)] := by
  constructor <;> decide

/-- C2, amended: both parsers map well-formed inputs to one inclusive
range per comma token in input order ("5" to [(5,5)], "5-7" to [(5,7)],
"2,4,6-8" to [(2,2),(4,4),(6,8)]) and both raise on "x-1" with no
partial result; `parse_page_query` raises on every token rejected by
Python `int` (which tolerates signs and surrounding whitespace), while
`parse_page_input` raises only on bad hyphenated tokens and silently
skips any other non-digit token; a successful `parse_page_query` always
returns exactly one range per comma-separated token. -/
theorem C2_amended_page_range :
    (parse_page_query "5" = some [(5, 5)] ∧ parse_page_query "5-7" = some [(5, 7)] ∧
      parse_page_query "2,4,6-8" = some [(2, 2), (4, 4), (6, 8)] ∧
      parse_page_query "x-1" = none ∧
      parse_page_input "5" = some [(5, 5)] ∧ parse_page_input "5-7" = some [(5, 7)] ∧
      parse_page_input "2,4,6-8" = some [(2, 2), (4, 4), (6, 8)] ∧
      parse_page_input "x-1" = none) ∧
    ∀ s l, parse_page_query s = some l → l.length = (pySplit s ',').length := by
  refine ⟨by decide, fun s l h => mapM_parseQueryToken_length _ _ h⟩

/-- C2, witness: the general one-range-per-token conclusion applied to
the concrete input "2,4,6-8". -/
theorem C2_witness :
    ([((2 : Int), (2 : Int)), (4, 4), (6, 8)]).length = (pySplit "2,4,6-8" ',').length :=
  C2_amended_page_range.2 "2,4,6-8" [(2, 2), (4, 4), (6, 8)] (by decide)

/-! ## C9: TOC locator -/

/-- Once a span `(s0, e0)` with `e0 < i` is recorded, the loop keeps the
start, only grows the end, and stays below the scanned range's end. -/
theorem tocLoop_some_bounds (l : List String) :
    ∀ i s0 e0 s e, e0 < i → tocLoop l i (some (s0, e0)) = some (s, e) →
      s = s0 ∧ e0 ≤ e ∧ e < i + l.length := by
  induction l with
  | nil =>
    intro i s0 e0 s e he h
    cases h
    omega
  | cons txt rest ih =>
    intro i s0 e0 s e he h
    rw [tocLoop] at h
    by_cases htl : is_toc_like_page txt 3 5
    · rw [if_pos htl] at h
      have := ih (i + 1) s0 i s e (by omega) h
      refine ⟨this.1, by omega, by simp [List.length_cons]; omega⟩
    · rw [if_neg htl] at h
      cases h
      refine ⟨rfl, le_refl _, by simp [List.length_cons]; omega⟩

/-- Bounds for a span found by the scan loop started with no span. -/
theorem tocLoop_none_bounds (l : List String) :
    ∀ i s e, tocLoop l i none = some (s, e) → i ≤ s ∧ s ≤ e ∧ e < i + l.length := by
  induction l with
  | nil => intro i s e h; cases h
  | cons txt rest ih =>
    intro i s e h
    rw [tocLoop] at h
    by_cases hst : (isContentsPage txt || is_toc_like_page txt 3 5) = true
    · rw [if_pos hst] at h
      have := tocLoop_some_bounds rest (i + 1) i i s e (by omega) h
      refine ⟨by omega, by omega, by simp [List.length_cons]; omega⟩
    · rw [if_neg hst] at h
      have := ih (i + 1) s e h
      refine ⟨by omega, this.2.1, by simp [List.length_cons]; omega⟩

/-- If no scanned page qualifies as a start page, the loop finds nothing. -/
theorem tocLoop_no_start (l : List String) :
    ∀ i, (∀ txt ∈ l, isContentsPage txt = false ∧ is_toc_like_page txt 3 5 = false) →
      tocLoop l i none = none := by
  induction l with
  | nil => intro i _; rfl
  | cons txt rest ih =>
    intro i hall
    rw [tocLoop]
    have h1 := hall txt (List.mem_cons_self txt rest)
    rw [if_neg (by simp [h1.1, h1.2])]
    exact ih (i + 1) (fun t ht => hall t (List.mem_cons_of_mem txt ht))

/-- C9: with the default parameters, the TOC locator's result depends
only on the first `min(N, 50)` pages; a returned span `(s, e)` satisfies
`1 ≤ s ≤ e ≤ min(N, 50)` and has length `e - s + 1 ≥ 2`; and a document
none of whose scanned pages qualifies as a start page yields the
not-found result `none` (a valid outcome, not an error). -/
theorem C9_toc_locator :
    (∀ pages, find_toc_page_range pages 50 2 = find_toc_page_range (pages.take 50) 50 2) ∧
    (∀ pages s e, find_toc_page_range pages 50 2 = some (s, e) →
      1 ≤ s ∧ s ≤ e ∧ e ≤ min pages.length 50 ∧ (e : Int) - (s : Int) + 1 ≥ 2) ∧
    (∀ pages, (∀ txt ∈ pages.take 50,
        isContentsPage txt = false ∧ is_toc_like_page txt 3 5 = false) →
      find_toc_page_range pages 50 2 = none) := by
  refine ⟨?_, ?_, ?_⟩
  · intro pages
    unfold find_toc_page_range
    rw [List.take_take, Nat.min_self]
  · intro pages s e h
    unfold find_toc_page_range at h
    split at h
    next s1 e1 hm =>
      split at h
      next hacc =>
        cases h
        have hb := tocLoop_none_bounds (pages.take 50) 1 s e hm
        have hlen : (pages.take 50).length = min pages.length 50 := by
          simp [List.length_take, Nat.min_comm]
        refine ⟨hb.1, hb.2.1, by omega, ?_⟩
        exact_mod_cast hacc.2.2
      next => cases h
    next => cases h
  · intro pages hall
    unfold find_toc_page_range
    rw [tocLoop_no_start (pages.take 50) 1 hall]

/-- C9, witness: a concrete document whose first two pages are TOC-like
and whose third is prose yields the span (1, 2), which satisfies all the
stated bounds. -/
theorem C9_witness :
    1 ≤ 1 ∧ 1 ≤ 2 ∧ 2 ≤ min (["a .. 1\nb .. 2\nc .. 3\nd\ne",
      "a .. 1\nb .. 2\nc .. 3\nd\ne", "prose"] : List String).length 50 ∧
      (2 : Int) - (1 : Int) + 1 ≥ 2 :=
  C9_toc_locator.2.1 ["a .. 1\nb .. 2\nc .. 3\nd\ne", "a .. 1\nb .. 2\nc .. 3\nd\ne", "prose"]
    1 2 (by decide)

/-! ## C10: duplicate normalized keys in the resolver -/

/-- Looking up after a dictionary insertion. -/
theorem dlookup_dinsert {α : Type} (d : List (String × α)) (k : String) (v : α) (κ : String) :
    dlookup κ (dinsert k v d) = if k = κ then some v else dlookup κ d := by
  induction d with
  | nil => simp only [dinsert, dlookup]
  | cons kv t ih =>
    obtain ⟨k1, v1⟩ := kv
    simp only [dinsert]
    by_cases h1 : k1 = k
    · subst h1
      rw [if_pos rfl]
      simp only [dlookup]
      by_cases h2 : k1 = κ <;> simp [h2]
    · rw [if_neg h1]
      simp only [dlookup, ih]
      by_cases h2 : k1 = κ <;> by_cases h3 : k = κ <;> simp_all

/-- The dictionary-comprehension fold against the last-entry fold. -/
theorem buildCleaned_go (tm : List (String × (Int × Option Int))) :
    ∀ (d : List (String × String)) (κ : String),
      dlookup κ (tm.foldl (fun d kv => dinsert (clean_topic_key kv.1) kv.1 d) d) =
        tm.foldl (fun acc kv => if clean_topic_key kv.1 = κ then some kv.1 else acc)
          (dlookup κ d) := by
  induction tm with
  | nil => intro d κ; rfl
  | cons kv t ih =>
    intro d κ
    simp only [List.foldl_cons]
    rw [ih, dlookup_dinsert]

/-- The cleaned dictionary resolves a normalized key to the raw title of
the LAST index entry bearing it. -/
theorem buildCleaned_lookup (tm : List (String × (Int × Option Int))) (κ : String) :
    dlookup κ (buildCleaned tm) = lastClean κ tm := by
  have h := buildCleaned_go tm [] κ
  simpa only [buildCleaned, lastClean, dlookup] using h

/-- C10: when two distinct raw titles of the index normalize to the same
key, any query whose normalization equals that key resolves (via the
exact-match path) to the later title, and the earlier title is no longer
reachable by exact normalized lookup. -/
theorem C10_later_title_wins :
    ∀ tm t1 v1 t2 v2 q,
      (t1, v1) ∈ tm → clean_topic_key t1 = clean_topic_key t2 → t1 ≠ t2 →
      lastClean (clean_topic_key t1) tm = some t2 →
      dlookup t2 tm = some v2 →
      normQuery q = clean_topic_key t1 →
      by_topic q tm = some (t2, v2) ∧
        dlookup (clean_topic_key t1) (buildCleaned tm) ≠ some t1 := by
  intro tm t1 v1 t2 v2 q hmem hclean hne hlast hv2 hq
  have hlk : dlookup (clean_topic_key t1) (buildCleaned tm) = some t2 := by
    rw [buildCleaned_lookup]
    exact hlast
  constructor
  · simp only [by_topic, hq, hlk, hv2]
    rfl
  · rw [hlk]
    intro hcontra
    exact hne (Option.some.inj hcontra).symm

/-- C10, witness: "3 Intro" and "4 INTRO" both normalize to "intro"; the
query "Intro " resolves to the later title "4 INTRO" with its range, and
exact lookup can no longer return "3 Intro". -/
theorem C10_witness :
    by_topic "Intro " [("3 Intro", ((1 : Int), some 3)), ("4 INTRO", ((4 : Int), some 6))] =
        some ("4 INTRO", ((4 : Int), some 6)) ∧
      dlookup (clean_topic_key "3 Intro")
          (buildCleaned [("3 Intro", ((1 : Int), some 3)), ("4 INTRO", ((4 : Int), some 6))]) ≠
        some "3 Intro" :=
  C10_later_title_wins
    [("3 Intro", ((1 : Int), some 3)), ("4 INTRO", ((4 : Int), some 6))]
    "3 Intro" ((1 : Int), some 3) "4 INTRO" ((4 : Int), some 6) "Intro "
    (by decide) (by decide) (by decide) (by decide) (by decide) (by decide)

/-! ## C5: topic resolver -/

/-- Reflexivity of the value order. -/
theorem qLe_refl (a : Q) : qLe a a = true := by
  simp [qLe]

/-- Totality: a failed strict comparison yields the reverse weak one. -/
theorem qLe_of_not_qLt {a b : Q} (h : qLt a b = false) : qLe b a = true := by
  simp only [qLt, decide_eq_false_iff_not, not_lt] at h
  simp only [qLe, decide_eq_true_eq]
  omega

/-- A strict comparison implies the weak one. -/
theorem qLe_of_qLt {a b : Q} (h : qLt a b = true) : qLe a b = true := by
  simp only [qLt, decide_eq_true_eq] at h
  simp only [qLe, decide_eq_true_eq]
  omega

/-- Value equality implies the weak comparison. -/
theorem qLe_of_qEqv {a b : Q} (h : qEqv a b = true) : qLe a b = true := by
  simp only [qEqv, decide_eq_true_eq] at h
  simp only [qLe, decide_eq_true_eq]
  omega

/-- Transitivity of the value order over positive denominators. -/
theorem qLe_trans {a b c : Q} (ha : 0 < a.den) (hb : 0 < b.den) (hc : 0 < c.den)
    (h1 : qLe a b = true) (h2 : qLe b c = true) : qLe a c = true := by
  simp only [qLe, decide_eq_true_eq] at h1 h2 ⊢
  nlinarith

/-- Similarity ratios have positive denominators. -/
theorem ratioQ_den_pos (a b : List Char) : 0 < (ratioQ a b).den := by
  unfold ratioQ
  split
  · simp [qInt]
  · simp only
    omega

/-- What the maximum-selection fold guarantees about its result. -/
theorem foldl_pickBest_spec (l : List (Q × String)) :
    ∀ acc res, l.foldl pickBest acc = some res →
      (∀ p ∈ l, 0 < p.1.den) → (∀ a, acc = some a → 0 < a.1.den) →
      (acc = some res ∨ res ∈ l) ∧
        (∀ p ∈ l, qLe p.1 res.1 = true) ∧
        (∀ a, acc = some a → qLe a.1 res.1 = true) := by
  induction l with
  | nil =>
    intro acc res h _ _
    refine ⟨Or.inl h, by simp, fun a ha => ?_⟩
    rw [ha] at h
    cases h
    exact qLe_refl _
  | cons p t ih =>
    intro acc res h hden hacc
    rw [List.foldl_cons] at h
    have hpden : 0 < p.1.den := hden p (List.mem_cons_self p t)
    have htden : ∀ p' ∈ t, 0 < p'.1.den := fun p' hp' => hden p' (List.mem_cons_of_mem p hp')
    have hacc' : ∀ a, pickBest acc p = some a → 0 < a.1.den := by
      intro a ha
      cases acc with
      | none =>
        simp only [pickBest] at ha
        cases ha
        exact hpden
      | some q =>
        simp only [pickBest] at ha
        split at ha
        · cases ha; exact hpden
        · cases ha; exact hacc _ rfl
    obtain ⟨h1, h2, h3⟩ := ih (pickBest acc p) res h htden hacc'
    have hresden : 0 < res.1.den := by
      rcases h1 with h1 | h1
      · exact hacc' res h1
      · exact htden res h1
    have hple : qLe p.1 res.1 = true := by
      cases acc with
      | none => exact h3 p rfl
      | some q =>
        by_cases hcond :
            (qLt q.1 p.1 || (qEqv q.1 p.1 && strLtChars q.2.toList p.2.toList)) = true
        · refine h3 p ?_
          simp only [pickBest]
          rw [if_pos hcond]
        · have hkept : pickBest (some q) p = some q := by
            simp only [pickBest]
            rw [if_neg hcond]
          have hqle : qLe q.1 res.1 = true := h3 q hkept
          have hnlt : qLt q.1 p.1 = false := by
            cases hx : qLt q.1 p.1 <;> simp_all
          exact qLe_trans hpden (hacc q rfl) hresden (qLe_of_not_qLt hnlt) hqle
    refine ⟨?_, ?_, ?_⟩
    · rcases h1 with h1 | h1
      · cases acc with
        | none =>
          simp only [pickBest] at h1
          cases h1
          exact Or.inr (List.mem_cons_self _ _)
        | some q =>
          simp only [pickBest] at h1
          split at h1
          · cases h1; exact Or.inr (List.mem_cons_self _ _)
          · cases h1; exact Or.inl rfl
      · exact Or.inr (List.mem_cons_of_mem p h1)
    · intro p' hp'
      rcases List.mem_cons.mp hp' with hp' | hp'
      · rw [hp']; exact hple
      · exact h2 p' hp'
    · intro a ha
      cases acc with
      | none => cases ha
      | some q =>
        cases ha
        by_cases hcond :
            (qLt a.1 p.1 || (qEqv a.1 p.1 && strLtChars a.2.toList p.2.toList)) = true
        · have hkept : pickBest (some a) p = some p := by
            simp only [pickBest]
            rw [if_pos hcond]
          have hqle : qLe a.1 p.1 = true := by
            rcases Bool.or_eq_true_iff.mp hcond with hx | hx
            · exact qLe_of_qLt hx
            · exact qLe_of_qEqv (Bool.and_elim_left hx)
          exact qLe_trans (hacc a rfl) hpden hresden hqle (h3 p hkept)
        · have hkept : pickBest (some a) p = some a := by
            simp only [pickBest]
            rw [if_neg hcond]
          exact h3 a hkept

/-- A successful fuzzy lookup returns a candidate that clears the 0.6
cutoff and is a highest-ratio element of the candidate list. -/
theorem getCloseMatches1_spec (word : String) (poss : List String) (m : String)
    (h : getCloseMatches1 word poss = some m) :
    m ∈ poss ∧ qLe ⟨3, 5⟩ (ratioQ m.toList word.toList) = true ∧
      ∀ k ∈ poss, qLe (ratioQ k.toList word.toList) (ratioQ m.toList word.toList) = true := by
  simp only [getCloseMatches1] at h
  set scored := poss.filterMap (fun x =>
    let r := ratioQ x.toList word.toList
    if qLe ⟨3, 5⟩ r then some (r, x) else none) with hscored
  cases hf : scored.foldl pickBest none with
  | none => rw [hf] at h; cases h
  | some res =>
    rw [hf] at h
    cases h
    have hdens : ∀ p ∈ scored, 0 < p.1.den := by
      intro p hp
      rw [hscored] at hp
      obtain ⟨x, _, hx⟩ := List.mem_filterMap.mp hp
      simp only at hx
      split at hx
      · cases hx; exact ratioQ_den_pos _ _
      · cases hx
    obtain ⟨h1, h2, _⟩ := foldl_pickBest_spec scored none res hf hdens (by intro a ha; cases ha)
    have hres : res ∈ scored := by
      rcases h1 with h1 | h1
      · cases h1
      · exact h1
    obtain ⟨x, hxmem, hx⟩ := List.mem_filterMap.mp (hscored ▸ hres)
    have hcut : qLe ⟨3, 5⟩ (ratioQ x.toList word.toList) = true := by
      by_contra hcut
      simp only [Bool.not_eq_true] at hcut
      simp only [hcut] at hx
      cases hx
    rw [if_pos hcut] at hx
    cases hx
    refine ⟨hxmem, hcut, ?_⟩
    intro k hk
    by_cases hck : qLe ⟨3, 5⟩ (ratioQ k.toList word.toList) = true
    · have hkmem : (ratioQ k.toList word.toList, k) ∈ scored := by
        rw [hscored]
        exact List.mem_filterMap.mpr ⟨k, hk, by simp only [hck, if_pos]⟩
      exact h2 _ hkmem
    · have hlt : qLt (ratioQ k.toList word.toList) ⟨3, 5⟩ = true := by
        simp only [Bool.not_eq_true] at hck
        simp only [qLe, decide_eq_false_iff_not, not_le] at hck
        simp only [qLt, decide_eq_true_eq]
        omega
      exact qLe_trans (ratioQ_den_pos _ _) (by norm_num) (ratioQ_den_pos _ _)
        (qLe_of_qLt hlt) hcut

/-- C5, counterexample: the resolver does NOT normalize the query the
same way as the keys.  The key "12 Ab" normalizes to "ab", but the query
"12 Ab" is only case-folded and stripped, so the claimed exact match on
normalized forms never happens and the fuzzy ratio (4/7) is below the
cutoff: the resolver reports TopicNotFound instead of the key's range. -/
theorem C5_counterexample :
    clean_topic_key "12 Ab" = "ab" ∧
      by_topic "12 Ab" [("12 Ab", ((1 : Int), some 2))] = none := by
  constructor <;> decide

/-- C5, amended: the resolver normalizes each raw key by stripping a
leading heading-number prefix and case-folding, but the query only by
case-folding and whitespace-stripping (no prefix stripping); if the
normalized query equals some normalized key, that key's stored raw title
and range are returned (exact match wins); otherwise the single
highest-ratio normalized key is used iff its similarity ratio is at
least 0.6, and TopicNotFound is signalled otherwise. -/
theorem C5_amended_resolver :
    ∀ tm q,
      (∀ raw, dlookup (normQuery q) (buildCleaned tm) = some raw →
        by_topic q tm = (dlookup raw tm).map (fun v => (raw, v))) ∧
      (dlookup (normQuery q) (buildCleaned tm) = none →
        getCloseMatches1 (normQuery q) ((buildCleaned tm).map Prod.fst) = none →
        by_topic q tm = none) ∧
      (∀ m, dlookup (normQuery q) (buildCleaned tm) = none →
        getCloseMatches1 (normQuery q) ((buildCleaned tm).map Prod.fst) = some m →
        by_topic q tm = ((dlookup m (buildCleaned tm)).bind
            (fun real => (dlookup real tm).map (fun v => (real, v)))) ∧
          m ∈ (buildCleaned tm).map Prod.fst ∧
          qLe ⟨3, 5⟩ (ratioQ m.toList (normQuery q).toList) = true ∧
          ∀ k ∈ (buildCleaned tm).map Prod.fst,
            qLe (ratioQ k.toList (normQuery q).toList)
              (ratioQ m.toList (normQuery q).toList) = true) := by
  intro tm q
  refine ⟨?_, ?_, ?_⟩
  · intro raw hraw
    simp only [by_topic, hraw]
  · intro h1 h2
    simp only [by_topic, h1, h2]
  · intro m h1 h2
    obtain ⟨hmem, hcut, hmax⟩ := getCloseMatches1_spec (normQuery q)
      ((buildCleaned tm).map Prod.fst) m h2
    refine ⟨?_, hmem, hcut, hmax⟩
    simp only [by_topic, h1, h2]
    cases hdl : dlookup m (buildCleaned tm) with
    | none => rfl
    | some real => rfl

/-- C5, witness: the query "Data Collection" normalizes to the key
"2.3 Data Collection"'s normalized form, and the exact-match branch of
the amended statement yields that key with its range. -/
theorem C5_witness :
    by_topic "Data Collection" [("2.3 Data Collection", ((7 : Int), some 9))] =
      some ("2.3 Data Collection", ((7 : Int), some 9)) :=
  ((C5_amended_resolver [("2.3 Data Collection", ((7 : Int), some 9))] "Data Collection").1
    "2.3 Data Collection" (by decide)).trans rfl

/-! ## C6: band clustering -/

/-- C6: band clustering is the single pass `clusterBands = foldl
addToBands []`, where a table joins the FIRST band whose interval
overlaps its own non-strictly (the band expanding to the interval
union), and otherwise a new band is appended; and it is order-sensitive
and not transitively closed: the three pairwise-overlapping tables
`exT1, exT2, exT3` land in two different bands when scanned after the
far-away table `exTA`, but in one band when `exTA` comes last. -/
theorem C6_band_clustering :
    (∀ bands t, (∀ b ∈ bands, overlapsBand b t = false) →
      addToBands bands t = bands ++ [newBand t]) ∧
    (∀ l1 b l2 t, (∀ b' ∈ l1, overlapsBand b' t = false) → overlapsBand b t = true →
      addToBands (l1 ++ b :: l2) t = l1 ++ mergeBand b t :: l2) ∧
    ((clusterBands [exTA, exT1, exT2, exT3]).map (fun b => b.tables) =
      [[exTA, exT2, exT3], [exT1]]) ∧
    ((clusterBands [exT1, exT2, exT3, exTA]).map (fun b => b.tables) =
      [[exT1, exT2, exT3, exTA]]) ∧
    overlapsBand (newBand exT1) exT2 = true ∧
    overlapsBand (newBand exT2) exT3 = true ∧
    overlapsBand (newBand exT1) exT3 = true := by
  refine ⟨?_, ?_, by decide, by decide, by decide, by decide, by decide⟩
  · intro bands t hno
    induction bands with
    | nil => rfl
    | cons b bs ih =>
      simp only [addToBands]
      rw [if_neg (by simp [hno b (List.mem_cons_self b bs)])]
      rw [ih (fun b' hb' => hno b' (List.mem_cons_of_mem b hb'))]
      rfl
  · intro l1 b l2 t hno hov
    induction l1 with
    | nil =>
      simp only [List.nil_append, addToBands]
      rw [if_pos hov]
    | cons b1 bs ih =>
      simp only [List.cons_append, addToBands]
      rw [if_neg (by simp [hno b1 (List.mem_cons_self b1 bs)])]
      exact congrArg (fun l => b1 :: l) (ih (fun b' hb' => hno b' (List.mem_cons_of_mem b1 hb')))

/-- C6, witness: the far-away table `exTA` overlaps no band of
`[newBand exT1]`, so a fresh band is appended. -/
theorem C6_witness :
    addToBands [newBand exT1] exTA = [newBand exT1] ++ [newBand exTA] :=
  C6_band_clustering.1 [newBand exT1] exTA (by decide)

/-! ## C3, C4, C7: row emission -/

/-- A band emission at counter `cur` produces exactly one row per band
row, numbered `cur, cur+1, …`, and leaves the counter just past them. -/
theorem emitBand_idx (rs : List (List CellTxt)) : ∀ cur,
    (emitBand rs cur).1.map SheetRow.index = List.range' cur rs.length ∧
    (emitBand rs cur).2 = cur + rs.length := by
  induction rs with
  | nil => intro cur; exact ⟨rfl, rfl⟩
  | cons r t ih =>
    intro cur
    simp only [emitBand, List.map_cons, List.length_cons]
    constructor
    · rw [List.range'_succ, (ih (cur + 1)).1]
    · rw [(ih (cur + 1)).2]
      omega

/-- Emission invariants: the counter never decreases, the emitted index
sequence is strictly increasing, and every emitted index lies between
the starting and finishing counter values. -/
theorem emitRows_idx (elems : List Element) : ∀ cur,
    cur ≤ (emitRows elems cur).2 ∧
    List.Chain' (· < ·) ((emitRows elems cur).1.map SheetRow.index) ∧
    ∀ i ∈ (emitRows elems cur).1.map SheetRow.index, cur ≤ i ∧ i < (emitRows elems cur).2 := by
  induction elems with
  | nil =>
    intro cur
    exact ⟨le_refl _, List.chain'_nil, by intro i hi; simp [emitRows] at hi⟩
  | cons el rest ih =>
    intro cur
    cases el with
    | band y rows =>
      obtain ⟨hb1, hb2⟩ := emitBand_idx (bandRowLists rows) cur
      obtain ⟨ih1, ih2, ih3⟩ := ih ((emitBand (bandRowLists rows) cur).2 + 1)
      simp only [emitRows]
      refine ⟨by omega, ?_, ?_⟩
      · rw [List.map_append]
        apply List.chain'_append.mpr
        refine ⟨by rw [hb1]; exact (List.pairwise_lt_range' cur _).chain', ih2, ?_⟩
        intro x hx y hy
        have hxmem := List.mem_of_mem_getLast? hx
        rw [hb1] at hxmem
        have hxlt := (List.mem_range'_1.mp hxmem).2
        have hyge := (ih3 y (List.mem_of_mem_head? hy)).1
        omega
      · intro i hi
        rw [List.map_append, List.mem_append] at hi
        rcases hi with hi | hi
        · rw [hb1] at hi
          have hr := List.mem_range'_1.mp hi
          exact ⟨hr.1, by omega⟩
        · have := ih3 i hi
          omega
    | line y t =>
      obtain ⟨ih1, ih2, ih3⟩ := ih (cur + 1)
      simp only [emitRows]
      refine ⟨by omega, ?_, ?_⟩
      · rw [List.map_cons]
        apply List.chain'_cons'.mpr
        refine ⟨?_, ih2⟩
        intro y2 hy2
        have hge := (ih3 y2 (List.mem_of_mem_head? hy2)).1
        show cur < y2
        omega
      · intro i hi
        rw [List.map_cons, List.mem_cons] at hi
        rcases hi with hi | hi
        · subst hi
          exact ⟨le_refl _, by omega⟩
        · have := ih3 i hi
          omega

/-- Page-level emission invariants, by inversion of `processPage`. -/
theorem processPage_idx (tbls : List RTable) (pg : RPage) (cur : Nat)
    (out : List SheetRow × Nat) (h : processPage tbls pg cur = .ok out) :
    cur ≤ out.2 ∧
    List.Chain' (· < ·) (out.1.map SheetRow.index) ∧
    ∀ i ∈ out.1.map SheetRow.index, cur ≤ i ∧ i < out.2 := by
  unfold processPage at h
  split at h
  next => cases h
  next tabs htabs =>
    split at h
    next => cases h
    next belems hbel =>
      split at h
      next => cases h
      next lelems hlel =>
        cases h
        exact emitRows_idx _ cur

/-- Document-level emission invariants across the page loop. -/
theorem analyzePages_idx (tbls : List RTable) (pages : List RPage) : ∀ cur out,
    analyzePages tbls pages cur = .ok out →
    cur ≤ out.2 ∧
    List.Chain' (· < ·) (out.1.map SheetRow.index) ∧
    ∀ i ∈ out.1.map SheetRow.index, cur ≤ i ∧ i < out.2 := by
  induction pages with
  | nil =>
    intro cur out h
    cases h
    exact ⟨le_refl _, List.chain'_nil, by simp⟩
  | cons pg rest ih =>
    intro cur out h
    rw [analyzePages] at h
    split at h
    next => cases h
    next o1 ho1 =>
      split at h
      next => cases h
      next o2 ho2 =>
        cases h
        obtain ⟨hp1, hp2, hp3⟩ := processPage_idx tbls pg cur o1 ho1
        obtain ⟨hr1, hr2, hr3⟩ := ih o1.2 o2 ho2
        refine ⟨by omega, ?_, ?_⟩
        · rw [List.map_append]
          apply List.chain'_append.mpr
          refine ⟨hp2, hr2, ?_⟩
          intro x hx y hy
          have hxlt := (hp3 x (List.mem_of_mem_getLast? hx)).2
          have hyge := (hr3 y (List.mem_of_mem_head? hy)).1
          omega
        · intro i hi
          rw [List.map_append, List.mem_append] at hi
          rcases hi with hi | hi
          · have := hp3 i hi
            omega
          · have := hr3 i hi
            omega

/-- C3: for every document the layout reconstructor processes
successfully, the emitted `SheetRow.index` sequence is strictly
increasing across the entire document — the counter is global and never
reset between pages. -/
theorem C3_row_indices_strictly_increasing :
    ∀ res rows, analyze_spreadsheet_auto_merge res = Except.ok rows →
      List.Chain' (· < ·) (rows.map SheetRow.index) := by
  intro res rows h
  unfold analyze_spreadsheet_auto_merge at h
  cases ha : analyzePages res.tables res.pages 1 with
  | error e => rw [ha] at h; cases h
  | ok out =>
    rw [ha] at h
    cases h
    exact (analyzePages_idx res.tables res.pages 1 out ha).2.1

/-- C3, witness: the two-page example document is processed successfully
and its emitted row indices are strictly increasing. -/
theorem C3_witness :
    ∃ rows, analyze_spreadsheet_auto_merge exDocC3 = Except.ok rows ∧
      List.Chain' (· < ·) (rows.map SheetRow.index) :=
  ⟨_, rfl, C3_row_indices_strictly_increasing exDocC3 _ rfl⟩

/-! ## C4: band separator -/

/-- C4, counterexample: in the one-page document `exDocC4` the band's
single row (index 1) is followed directly by the retained text line's
row (index 3): the counter skipped an index after the band but NO blank
separator row was appended to the output row sequence. -/
theorem C4_counterexample :
    analyze_spreadsheet_auto_merge exDocC4 =
      Except.ok [{ cells := [{ value := "A", enable := true, index := 1 }], index := 1 },
                 { cells := [{ value := "below", enable := true, index := 1 }], index := 3 }] :=
  rfl

/-- C4, amended: after all of a band's rows are emitted the global row
counter is incremented one extra time — leaving a gap in the emitted
index sequence as the separator — but no blank row record is appended:
the band contributes exactly one output row per band row. -/
theorem C4_amended_band_separator :
    ∀ y rows rest cur,
      (emitRows (Element.band y rows :: rest) cur).1 =
        (emitBand (bandRowLists rows) cur).1 ++
          (emitRows rest (cur + (bandRowLists rows).length + 1)).1 ∧
      (emitRows (Element.band y rows :: rest) cur).2 =
        (emitRows rest (cur + (bandRowLists rows).length + 1)).2 ∧
      (emitBand (bandRowLists rows) cur).1.length = (bandRowLists rows).length := by
  intro y rows rest cur
  obtain ⟨hb1, hb2⟩ := emitBand_idx (bandRowLists rows) cur
  have hlen : (emitBand (bandRowLists rows) cur).1.length = (bandRowLists rows).length := by
    have := congrArg List.length hb1
    simpa using this
  simp only [emitRows, hb2]
  exact ⟨trivial, trivial, hlen⟩

/-! ## C7: free-text line handling -/

/-- C7: over lines with non-degenerate polygons, the reconstructed
standalone elements are exactly the lines whose representative point
(mean x, mean y of the polygon vertices) lies inside no table polygon,
in input order, each positioned at its centroid y and carrying its
stripped content; and at emission a standalone text element contributes
exactly one single-cell row. -/
theorem C7_line_dropped_iff_inside :
    (∀ polys lines, (∀ l ∈ lines, l.polygon ≠ []) →
      buildLineElems polys lines = Except.ok
        ((lines.filter (fun l => !(polys.any (fun p => polyContains p (repPoint l))))).map
          (fun l => Element.line (centroidY l) (pyStrip l.content)))) ∧
    (∀ y t rest cur,
      (emitRows (Element.line y t :: rest) cur).1 =
        { cells := [{ value := t, enable := true, index := 1 }], index := cur } ::
          (emitRows rest (cur + 1)).1) := by
  constructor
  · intro polys lines hnd
    induction lines with
    | nil => rfl
    | cons l rest ih =>
      have hl : l.polygon ≠ [] := hnd l (List.mem_cons_self l rest)
      have hrest : ∀ l' ∈ rest, l'.polygon ≠ [] :=
        fun l' hl' => hnd l' (List.mem_cons_of_mem l hl')
      have hlen : l.polygon.length ≠ 0 := fun hc => hl (List.eq_nil_of_length_eq_zero hc)
      simp only [buildLineElems, lineElement, if_neg hlen, List.filter_cons]
      cases hin : polys.any (fun p => polyContains p (repPoint l)) with
      | true =>
        simp only [hin, Bool.not_true, if_neg]
        rw [ih hrest]
        simp
      | false =>
        simp only [hin, Bool.not_false, if_pos]
        rw [ih hrest]
        simp
  · intro y t rest cur
    rfl

/-- C7, witness: on the concrete page the line inside the table polygon
is dropped and the line below it is kept as its own element. -/
theorem C7_witness :
    buildLineElems [exSquare] [exLineBelow, exLineInside] = Except.ok
      (([exLineBelow, exLineInside].filter
          (fun l => !([exSquare].any (fun p => polyContains p (repPoint l))))).map
        (fun l => Element.line (centroidY l) (pyStrip l.content))) :=
  C7_line_dropped_iff_inside.1 [exSquare] [exLineBelow, exLineInside] (by decide)

/-! ## C8: degenerate polygons -/

/-- C8: a document containing a line with an empty bounding polygon, or
a table whose bounding polygon has fewer than three vertices, makes the
layout reconstruction raise an uncaught exception and abort the whole
document, instead of skipping the offending element. -/
theorem C8_degenerate_polygon_aborts :
    analyze_spreadsheet_auto_merge exDocBadLine =
        Except.error "ZeroDivisionError: division by zero" ∧
      analyze_spreadsheet_auto_merge exDocBadTable =
        Except.error "ValueError: A LinearRing must have at least 3 coordinate tuples" :=
  ⟨rfl, rfl⟩

end DocEngine
